import Mathlib

/-!
# Correlio backend engine — shallow embedding

A shallow embedding of `backend/engine.py` (pandas-based return/correlation
pipeline).  Tables are lists of records; numeric values are exact rationals;
pandas missing values (`NaT` / `NaN`) are `Option`; a pandas operation that can
raise is embedded in `Except String`.

Modelling conventions, stated once:
* `pd.to_datetime(..., errors="coerce")` and `pd.to_numeric(..., errors="coerce")`
  are modelled by giving the raw table `Option`-valued `date`/`price` cells:
  `none` is an unparseable or missing cell, `some v` a parsed value.
* `astype(str)` on a column renders a missing cell as the string `"nan"`
  (Python `str(float("nan"))`), after which `.str.strip()` trims whitespace.
* `DataFrame.pivot` raises on duplicate (index, columns) pairs and sorts its
  column labels ascending; column selection `df[[c1, c2]]` raises `KeyError`
  when a label is absent.
* `groupby` (with the default `sort=True`) emits groups in ascending key order
  and preserves the incoming row order inside each group.
* A Pearson correlation value `S_xy / sqrt(S_xx * S_yy)` is irrational in
  general, so a defined correlation cell is carried exactly as the pair
  `CorrVal` of its numerator `S_xy` and squared denominator `S_xx * S_yy`
  (the `(n-1)` normalisations of covariance and standard deviations cancel);
  pandas' `NaN` outcome (fewer than `min_periods` pairwise-complete rows, or a
  zero denominator) is `none`.  The float `.round(6)` applied at emission is
  treated at the real-number level in the theorem about rounding.
-/

namespace Correlio

/-- A calendar date: its year plus an ordinal position inside the year
(month/day collapsed to one number, which is all the engine inspects). -/
structure Date where
  year : Int
  sub : Nat
deriving DecidableEq, Repr

/-- Chronological order on dates. -/
def dateLe (d1 d2 : Date) : Prop :=
  d1.year < d2.year ∨ (d1.year = d2.year ∧ d1.sub ≤ d2.sub)

instance : DecidableRel dateLe := fun d1 d2 => by
  unfold dateLe; infer_instance

instance : IsTotal Date dateLe := by
  constructor
  intro a b
  unfold dateLe
  rcases lt_trichotomy a.year b.year with h | h | h
  · exact Or.inl (Or.inl h)
  · rcases Nat.le_total a.sub b.sub with h2 | h2
    · exact Or.inl (Or.inr ⟨h, h2⟩)
    · exact Or.inr (Or.inr ⟨h.symm, h2⟩)
  · exact Or.inr (Or.inl h)

instance : IsTrans Date dateLe := by
  constructor
  intro a b c hab hbc
  unfold dateLe at *
  rcases hab with h1 | ⟨h1, h1s⟩ <;> rcases hbc with h2 | ⟨h2, h2s⟩
  · exact Or.inl (h1.trans h2)
  · exact Or.inl (h2 ▸ h1)
  · exact Or.inl (h1 ▸ h2)
  · exact Or.inr ⟨h1.trans h2, h1s.trans h2s⟩

/-- One row of the raw CSV, after the two `errors="coerce"` parses: `none`
models a missing or unparseable cell. -/
structure RawRow where
  date : Option Date
  asset : Option String
  price : Option Rat
  category : Option String
deriving DecidableEq, Repr

/-- One row of the cleaned price table. -/
structure PriceRow where
  date : Date
  asset : String
  price : Rat
  category : String
deriving DecidableEq, Repr

/-- `column.astype(str).str.strip()`: a missing cell becomes the literal
string `"nan"`; a present cell is trimmed. -/
def strOfCell : Option String → String
  | none => "nan"
  | some s => s.trim

/-- `sort_values(["asset", "date"])` order on cleaned rows. -/
def rowLe (r1 r2 : PriceRow) : Prop :=
  r1.asset < r2.asset ∨ (r1.asset = r2.asset ∧ dateLe r1.date r2.date)

instance : DecidableRel rowLe := fun r1 r2 => by
  unfold rowLe; infer_instance

instance : IsTotal PriceRow rowLe := by
  constructor
  intro a b
  unfold rowLe
  rcases lt_trichotomy a.asset b.asset with h | h | h
  · exact Or.inl (Or.inl h)
  · rcases total_of dateLe a.date b.date with h2 | h2
    · exact Or.inl (Or.inr ⟨h, h2⟩)
    · exact Or.inr (Or.inr ⟨h.symm, h2⟩)
  · exact Or.inr (Or.inl h)

instance : IsTrans PriceRow rowLe := by
  constructor
  intro a b c hab hbc
  unfold rowLe at *
  rcases hab with h1 | ⟨h1, h1d⟩ <;> rcases hbc with h2 | ⟨h2, h2d⟩
  · exact Or.inl (h1.trans h2)
  · exact Or.inl (h2 ▸ h1)
  · exact Or.inl (h1 ▸ h2)
  · exact Or.inr ⟨h1.trans h2, trans_of dateLe h1d h2d⟩

/-- `load_prices`: parse-coerce `date` and `price`, stringify-and-trim `asset`
and `category`, drop rows whose `date` or `price` failed to parse (after
`astype(str)` the `asset` column holds no missing value, so
`dropna(subset=["date", "asset", "price"])` never drops on `asset`), then
`sort_values(["asset", "date"])`. -/
def load_prices (raw : List RawRow) : List PriceRow :=
  let kept := raw.filterMap (fun r =>
    match r.date, r.price with
    | some d, some p =>
        some { date := d, asset := strOfCell r.asset, price := p,
               category := strOfCell r.category }
    | _, _ => none)
  List.insertionSort rowLe kept

/-- A row of the monthly-return table (`compute_monthly_returns` output). -/
structure MRow where
  date : Date
  asset : String
  price : Rat
  category : String
  monthly_return : Option Rat
  year : Int
deriving DecidableEq, Repr

/-- `groupby("asset")["price"].pct_change()` walked row by row: `last` carries
the most recent price seen so far for each asset. -/
def monthlyGo (last : String → Option Rat) : List PriceRow → List MRow
  | [] => []
  | r :: rest =>
      { date := r.date, asset := r.asset, price := r.price, category := r.category,
        monthly_return := (last r.asset).map (fun q => r.price / q - 1),
        year := r.date.year } ::
      monthlyGo (fun a => if a = r.asset then some r.price else last a) rest

/-- `compute_monthly_returns`. -/
def compute_monthly_returns (rows : List PriceRow) : List MRow :=
  monthlyGo (fun _ => none) rows

/-- A row of the yearly-return table. -/
structure YRow where
  asset : String
  year : Int
  yearly_return : Rat
deriving DecidableEq, Repr

/-- Ascending (asset, year) key order used by `groupby(["asset", "year"])`. -/
def keyLe (k1 k2 : String × Int) : Prop :=
  k1.1 < k2.1 ∨ (k1.1 = k2.1 ∧ k1.2 ≤ k2.2)

instance : DecidableRel keyLe := fun k1 k2 => by
  unfold keyLe; infer_instance

instance : IsTotal (String × Int) keyLe := by
  constructor
  intro a b
  unfold keyLe
  rcases lt_trichotomy a.1 b.1 with h | h | h
  · exact Or.inl (Or.inl h)
  · rcases Int.le_total a.2 b.2 with h2 | h2
    · exact Or.inl (Or.inr ⟨h, h2⟩)
    · exact Or.inr (Or.inr ⟨h.symm, h2⟩)
  · exact Or.inr (Or.inl h)

instance : IsTrans (String × Int) keyLe := by
  constructor
  intro a b c hab hbc
  unfold keyLe at *
  rcases hab with h1 | ⟨h1, h1y⟩ <;> rcases hbc with h2 | ⟨h2, h2y⟩
  · exact Or.inl (h1.trans h2)
  · exact Or.inl (h2 ▸ h1)
  · exact Or.inl (h1 ▸ h2)
  · exact Or.inr ⟨h1.trans h2, h1y.trans h2y⟩

/-- The defined monthly returns of one (asset, year) group, in row order
(chronological within an asset for a sorted table). -/
def groupReturns (rows : List MRow) (a : String) (y : Int) : List Rat :=
  rows.filterMap (fun r =>
    if r.asset = a ∧ r.year = y then r.monthly_return else none)

/-- The fold `(1 + x).prod() - 1` over a group, in row order. -/
def compoundReturn (rs : List Rat) : Rat :=
  rs.foldl (fun p r => p * (1 + r)) 1 - 1

/-- `compute_yearly_returns`: drop rows with undefined monthly return, group
by (asset, year) (groups emitted in ascending key order), compound each
group. -/
def compute_yearly_returns (rows : List MRow) : List YRow :=
  let tmp := rows.filter (fun r => r.monthly_return.isSome)
  let keys := List.insertionSort keyLe (tmp.map (fun r => (r.asset, r.year))).dedup
  keys.map (fun k =>
    { asset := k.1, year := k.2,
      yearly_return := compoundReturn (groupReturns tmp k.1 k.2) })

/-- Column labels of `compute_yearly_wide`'s pivot: the distinct assets of the
yearly table, sorted ascending (pivot sorts its column labels). -/
def wideCols (yr : List YRow) : List String :=
  List.insertionSort (· ≤ ·) (yr.map (fun r => r.asset)).dedup

/-- Index labels of the pivot: the distinct years, sorted ascending. -/
def wideYears (yr : List YRow) : List Int :=
  List.insertionSort (· ≤ ·) (yr.map (fun r => r.year)).dedup

/-- One cell of the wide year×asset table (`none` = absent pair).  The pivot
requires unique (asset, year) keys, which `compute_yearly_returns` guarantees,
so `find?` is unambiguous there. -/
def wideCell (yr : List YRow) (y : Int) (a : String) : Option Rat :=
  (yr.find? (fun r => decide (r.asset = a) && decide (r.year = y))).map
    (fun r => r.yearly_return)

/-- One entry of `pairwise_overlap_counts`: the inner product, over years, of
the two assets' presence indicators (`m.T.dot(m)` on `wide.notna()`). -/
def pairwise_overlap_counts (yr : List YRow) (a b : String) : Nat :=
  ((wideYears yr).map (fun y =>
    (if (wideCell yr y a).isSome then 1 else 0) *
      (if (wideCell yr y b).isSome then 1 else 0))).sum

/-- The pairwise-complete observations of two assets: the (value, value)
pairs over years where both yearly returns are defined. -/
def overlapPairs (yr : List YRow) (a b : String) : List (Rat × Rat) :=
  (wideYears yr).filterMap (fun y =>
    match wideCell yr y a, wideCell yr y b with
    | some x, some z => some (x, z)
    | _, _ => none)

/-- An exact Pearson correlation value `num / sqrt denSq`, carried
symbolically (see the header comment). -/
structure CorrVal where
  num : Rat
  denSq : Rat
deriving DecidableEq, Repr

/-- Pearson sums of a paired sample: `num = Σ (x-x̄)(y-ȳ)` and
`denSq = (Σ (x-x̄)²) * (Σ (y-ȳ)²)`. -/
def corrStats (ps : List (Rat × Rat)) : CorrVal :=
  let n : Rat := ps.length
  let mx := (ps.map (fun p => p.1)).sum / n
  let my := (ps.map (fun p => p.2)).sum / n
  { num := (ps.map (fun p => (p.1 - mx) * (p.2 - my))).sum,
    denSq := ((ps.map (fun p => (p.1 - mx) ^ 2)).sum) *
      ((ps.map (fun p => (p.2 - my) ^ 2)).sum) }

/-- One cell of `wide.corr(method="pearson", min_periods=2)`: `NaN` (= `none`)
when fewer than 2 pairwise-complete rows exist or a series is constant on the
overlap (zero denominator). -/
def pearsonCell (yr : List YRow) (a b : String) : Option CorrVal :=
  let ps := overlapPairs yr a b
  if ps.length < 2 then none
  else
    let c := corrStats ps
    if c.denSq = 0 then none else some c

/-- One point of the aligned bivariate monthly-return series. -/
structure APoint where
  date : Date
  x : Rat
  y : Rat
deriving DecidableEq, Repr

/-- One cell of the date×asset pivot of monthly returns (`none` when the row
is absent or its return is undefined). -/
def mwCell (sub : List MRow) (d : Date) (a : String) : Option Rat :=
  (sub.find? (fun r => decide (r.date = d) && decide (r.asset = a))).bind
    (fun r => r.monthly_return)

/-- The aligned bivariate series of `compute_rolling_corr_year_end`: pivot the
two assets' rows by date (dates ascending), keep the dates where both monthly
returns are defined (`dropna(how="any")`). -/
def alignedSeries (dfM : List MRow) (a1 a2 : String) : List APoint :=
  let sub := dfM.filter (fun r => decide (r.asset = a1) || decide (r.asset = a2))
  let dates := List.insertionSort dateLe (sub.map (fun r => r.date)).dedup
  dates.filterMap (fun d =>
    match mwCell sub d a1, mwCell sub d a2 with
    | some x, some z => some { date := d, x := x, y := z }
    | _, _ => none)

/-- Correlation of one full window; `none` models the `NaN` produced by a
zero denominator (constant series), which `.dropna()` then discards. -/
def windowCorr (ps : List (Rat × Rat)) : Option CorrVal :=
  let c := corrStats ps
  if c.denSq = 0 then none else some c

/-- The `W` consecutive aligned observations ending at index `i`. -/
def windowAt (aligned : List APoint) (W i : Nat) : List (Rat × Rat) :=
  ((aligned.drop (i + 1 - W)).take W).map (fun u => (u.x, u.y))

/-- Placeholder point for total indexing (never reached under the `i <
length` bound of `List.range`). -/
def dummyAPoint : APoint := { date := { year := 0, sub := 0 }, x := 0, y := 0 }

/-- `s1.rolling(window=W, min_periods=W).corr(s2).dropna()`: one value per
index `i` with a full `W`-window ending at `i` and a nonzero denominator,
tagged with the window-end date. -/
def rawRolling (aligned : List APoint) (W : Nat) : List (Date × CorrVal) :=
  (List.range aligned.length).filterMap (fun i =>
    if W ≤ i + 1 then
      (windowCorr (windowAt aligned W i)).map
        (fun v => ((aligned.getD i dummyAPoint).date, v))
    else none)

/-- `rc.groupby(rc.index.year).last()`: for each year present (ascending),
the last value whose window-end date falls in that year. -/
def perYearLast (l : List (Date × CorrVal)) : List (Int × CorrVal) :=
  (List.insertionSort (· ≤ ·) ((l.map (fun p => p.1.year)).dedup)).filterMap
    (fun y => ((l.filter (fun p => decide (p.1.year = y))).getLast?).map
      (fun p => (y, p.2)))

/-- `compute_rolling_corr_year_end`.  The pivot raises on duplicate
(date, asset) pairs among the two assets' rows, and the column selection
`monthly_wide[[asset_a, asset_b]]` raises `KeyError` when either asset has no
row at all; both raises are `Except.error`.  The two early returns of empty
series coincide with letting the pipeline run on the empty list. -/
def compute_rolling_corr_year_end (dfM : List MRow) (a1 a2 : String)
    (W : Nat) : Except String (List (Int × CorrVal)) :=
  let sub := dfM.filter (fun r => decide (r.asset = a1) || decide (r.asset = a2))
  if (sub.map (fun r => (r.date, r.asset))).Nodup then
    if a1 ∈ sub.map (fun r => r.asset) ∧ a2 ∈ sub.map (fun r => r.asset) then
      .ok (perYearLast (rawRolling (alignedSeries dfM a1 a2) W))
    else .error "KeyError: columns not in index"
  else .error "ValueError: Index contains duplicate entries, cannot reshape"

/-- A row of the display table built by `cap_yearly_returns_for_display`. -/
structure DRow where
  asset : String
  year : Int
  true_return : Rat
  disp_return : Rat
  clipped : Bool
deriving DecidableEq, Repr

/-- `cap_yearly_returns_for_display`: `clip(lower=-cap_dec, upper=cap_dec)`
applies the lower bound, then the upper bound; `clipped` compares exactly. -/
def cap_yearly_returns_for_display (yr : List YRow) (cap_pct : Rat) : List DRow :=
  let cap_dec := cap_pct / 100
  yr.map (fun r =>
    let t := r.yearly_return
    let d := min (max t (-cap_dec)) cap_dec
    { asset := r.asset, year := r.year, true_return := t, disp_return := d,
      clipped := decide (t ≠ d) })

/-- `sort_values(["asset", "year"])` order on display rows. -/
def dispLe (r1 r2 : DRow) : Prop :=
  r1.asset < r2.asset ∨ (r1.asset = r2.asset ∧ r1.year ≤ r2.year)

instance : DecidableRel dispLe := fun r1 r2 => by
  unfold dispLe; infer_instance

instance : IsTotal DRow dispLe := by
  constructor
  intro a b
  unfold dispLe
  rcases lt_trichotomy a.asset b.asset with h | h | h
  · exact Or.inl (Or.inl h)
  · rcases Int.le_total a.year b.year with h2 | h2
    · exact Or.inl (Or.inr ⟨h, h2⟩)
    · exact Or.inr (Or.inr ⟨h.symm, h2⟩)
  · exact Or.inr (Or.inl h)

instance : IsTrans DRow dispLe := by
  constructor
  intro a b c hab hbc
  unfold dispLe at *
  rcases hab with h1 | ⟨h1, h1y⟩ <;> rcases hbc with h2 | ⟨h2, h2y⟩
  · exact Or.inl (h1.trans h2)
  · exact Or.inl (h2 ▸ h1)
  · exact Or.inl (h1 ▸ h2)
  · exact Or.inr ⟨h1.trans h2, h1y.trans h2y⟩

/-- The payload dictionary.  Matrices are association lists whose outer and
inner key sequences record Python dict insertion order (`to_dict()` emits
columns, then index, in matrix order); a Pearson cell keeps its exact value
(the emission-time float `.round(6)` is treated in the rounding theorem), and
an overlap cell is the `astype(int)` integer count. -/
structure Payload where
  assets : List String
  yearRange : Int × Int
  capPct : Rat
  rollingWindowMonths : Nat
  yearlyReturns : List DRow
  rollingCorrelation : Option (List (Int × CorrVal))
  pearsonMatrix : Option (List (String × List (String × Option CorrVal)))
  overlapYears : Option (List (String × List (String × Nat)))
deriving DecidableEq, Repr

/-- The `yr` table of `compute_payload`: yearly returns of the selected
assets' monthly rows, restricted to the inclusive year range. -/
def selectedYearly (df_prices : List PriceRow) (assets : List String)
    (year_start year_end : Int) : List YRow :=
  ((compute_yearly_returns
      ((compute_monthly_returns df_prices).filter
        (fun r => assets.contains r.asset))).filter
    (fun r => decide (year_start ≤ r.year) && decide (r.year ≤ year_end)))

/-- The `pearsonMatrix` section: computed only when the wide table has at
least 2 columns, and emitted in the wide table's own column order
(`corr.reindex(index=order, columns=order)` with
`order = list(yearly_wide.columns)` re-labels the matrix with its own
labels). -/
def pearsonMatrixOf (yr : List YRow) :
    Option (List (String × List (String × Option CorrVal))) :=
  let cols := wideCols yr
  if 2 ≤ cols.length then
    some (cols.map (fun a => (a, cols.map (fun b => (b, pearsonCell yr a b)))))
  else none

/-- The `overlapYears` section, under the same ≥2-column guard and axis
order. -/
def overlapMatrixOf (yr : List YRow) :
    Option (List (String × List (String × Nat))) :=
  let cols := wideCols yr
  if 2 ≤ cols.length then
    some (cols.map (fun a =>
      (a, cols.map (fun b => (b, pairwise_overlap_counts yr a b)))))
  else none

/-- The `rollingCorrelation` section: only for a selection of exactly two
assets; the year-end series is filtered to the inclusive year range and an
empty filtered series is emitted as `none`. -/
def rollingResult (df_m : List MRow) (assets : List String)
    (year_start year_end : Int) (W : Nat) :
    Except String (Option (List (Int × CorrVal))) :=
  match assets with
  | [a1, a2] =>
      (compute_rolling_corr_year_end df_m a1 a2 W).map (fun rc =>
        let rcF := rc.filter (fun p =>
          decide (year_start ≤ p.1) && decide (p.1 ≤ year_end))
        if rcF.isEmpty then none else some rcF)
  | _ => .ok none

/-- `compute_payload`. -/
def compute_payload (df_prices : List PriceRow) (assets : List String)
    (year_start year_end : Int) (cap_pct : Rat) (rolling_window_months : Nat) :
    Except String Payload :=
  let df_m := compute_monthly_returns df_prices
  let yr := selectedYearly df_prices assets year_start year_end
  let yr_disp := cap_yearly_returns_for_display yr cap_pct
  (rollingResult df_m assets year_start year_end rolling_window_months).map
    (fun rolling =>
      { assets := assets, yearRange := (year_start, year_end), capPct := cap_pct,
        rollingWindowMonths := rolling_window_months,
        yearlyReturns := List.insertionSort dispLe yr_disp,
        rollingCorrelation := rolling,
        pearsonMatrix := pearsonMatrixOf yr,
        overlapYears := overlapMatrixOf yr })

/-!
## Supporting lemmas
-/

set_option maxRecDepth 100000

/-- Inverting `Except.map` at a success value. -/
theorem except_map_eq_ok {ε α β : Type} (f : α → β) (e : Except ε α) (b : β) :
    e.map f = .ok b ↔ ∃ a, e = .ok a ∧ b = f a := by
  cases e <;> simp [Except.map, eq_comm]

/-- A default payload, used to read a success result off concrete inputs. -/
def payloadD (df_prices : List PriceRow) (assets : List String)
    (year_start year_end : Int) (cap_pct : Rat) (rolling_window_months : Nat) :
    Payload :=
  (compute_payload df_prices assets year_start year_end cap_pct
      rolling_window_months).toOption.getD
    { assets := [], yearRange := (0, 0), capPct := 0, rollingWindowMonths := 0,
      yearlyReturns := [], rollingCorrelation := none, pearsonMatrix := none,
      overlapYears := none }

/-- Compounding distributes over the fold: folding `(1+r)` factors from `x`. -/
theorem foldl_compound (rs : List Rat) (x : Rat) :
    rs.foldl (fun p r => p * (1 + r)) x = x * (rs.map (fun r => 1 + r)).prod := by
  induction rs generalizing x with
  | nil => simp
  | cons r t ih =>
      simp only [List.foldl_cons, List.map_cons, List.prod_cons, ih, mul_assoc]

/-- `compoundReturn` is geometric compounding: product of `(1 + r)`, minus 1. -/
theorem compoundReturn_eq_prod (rs : List Rat) :
    compoundReturn rs = (rs.map (fun r => 1 + r)).prod - 1 := by
  simp [compoundReturn, foldl_compound]

/-- Filtering out the undefined monthly returns first does not change a
group's defined-return list. -/
theorem groupReturns_filter_isSome (rows : List MRow) (a : String) (y : Int) :
    groupReturns (rows.filter (fun r => r.monthly_return.isSome)) a y =
      groupReturns rows a y := by
  induction rows with
  | nil => rfl
  | cons r rest ih =>
      rcases hmr : r.monthly_return with _ | v
      · simpa [groupReturns, List.filter_cons, List.filterMap_cons, hmr] using ih
      · by_cases hk : r.asset = a ∧ r.year = y
        · simp only [groupReturns, List.filter_cons, List.filterMap_cons, hmr,
            Option.isSome_some, if_pos hk, if_true] at ih ⊢
          simpa using ih
        · simp only [groupReturns, List.filter_cons, List.filterMap_cons, hmr,
            Option.isSome_some, if_neg hk, if_true] at ih ⊢
          simpa using ih

/-!
## Claim theorems
-/

/-- C7: for every yearly-return row and cap percentage, `disp_return` is
`true_return` clamped to `[-capPct/100, capPct/100]`, `clipped` holds exactly
when clamping changed the value under exact equality, a value exactly at the
boundary is not clipped, and the two concrete cases `capPct=100` with true
return `1.80` (clipped to `1.0`) and with true return exactly `1.0` (not
clipped) behave as stated. -/
theorem c7_display_cap_clamps_and_flags (yr : List YRow) (cap_pct : Rat)
    (h : 0 ≤ cap_pct) :
    (∀ d ∈ cap_yearly_returns_for_display yr cap_pct,
        d.disp_return = min (max d.true_return (-(cap_pct / 100))) (cap_pct / 100) ∧
        (d.clipped = true ↔ d.true_return ≠ d.disp_return) ∧
        ((d.true_return = cap_pct / 100 ∨ d.true_return = -(cap_pct / 100)) →
          d.clipped = false)) ∧
    cap_yearly_returns_for_display
        [{ asset := "A", year := 2020, yearly_return := 9/5 }] 100 =
      [{ asset := "A", year := 2020, true_return := 9/5, disp_return := 1,
         clipped := true }] ∧
    cap_yearly_returns_for_display
        [{ asset := "A", year := 2020, yearly_return := 1 }] 100 =
      [{ asset := "A", year := 2020, true_return := 1, disp_return := 1,
         clipped := false }] := by
  have hc : (0 : Rat) ≤ cap_pct / 100 := by positivity
  have hnc : -(cap_pct / 100) ≤ cap_pct / 100 :=
    le_trans (neg_nonpos.mpr hc) hc
  refine ⟨?_, by with_unfolding_all rfl, by with_unfolding_all rfl⟩
  intro d hd
  simp only [cap_yearly_returns_for_display, List.mem_map] at hd
  obtain ⟨r, _, rfl⟩ := hd
  refine ⟨rfl, by simp, ?_⟩
  rintro (hb | hb) <;> dsimp only at hb ⊢ <;>
    rw [hb, decide_eq_false_iff_not]
  · rw [max_eq_left hnc, min_self]
    simp
  · rw [max_self, min_eq_left hnc]
    simp

/-- C7 witness: the theorem applied at `capPct = 100` on a singleton table,
with its nonnegativity hypothesis discharged concretely. -/
theorem c7_display_cap_clamps_and_flags_witness :
    (0 : Rat) ≤ 100 ∧
    cap_yearly_returns_for_display
        [{ asset := "A", year := 2020, yearly_return := 9/5 }] 100 =
      [{ asset := "A", year := 2020, true_return := 9/5, disp_return := 1,
         clipped := true }] :=
  ⟨by norm_num,
    (c7_display_cap_clamps_and_flags
      [{ asset := "A", year := 2020, yearly_return := 9/5 }] 100
      (by norm_num)).2.1⟩

/-- A (asset, year) group has a nonempty defined-return list over the
`isSome`-filtered rows exactly when the pair occurs among those rows' keys. -/
theorem groupReturns_ne_nil_iff (rows : List MRow) (a : String) (y : Int) :
    groupReturns (rows.filter fun r => r.monthly_return.isSome) a y ≠ [] ↔
      (a, y) ∈ (rows.filter fun r => r.monthly_return.isSome).map
        (fun r => (r.asset, r.year)) := by
  unfold groupReturns
  rw [Ne, List.filterMap_eq_nil_iff]
  push_neg
  constructor
  · rintro ⟨r, hr, hfr⟩
    have hkey : r.asset = a ∧ r.year = y := by
      by_contra hk
      rw [if_neg hk] at hfr
      exact hfr rfl
    exact List.mem_map.mpr ⟨r, hr, by rw [hkey.1, hkey.2]⟩
  · rintro hmem
    obtain ⟨r, hr, hkey⟩ := List.mem_map.mp hmem
    rw [Prod.ext_iff] at hkey
    refine ⟨r, hr, ?_⟩
    rw [if_pos ⟨hkey.1, hkey.2⟩]
    have hs := List.of_mem_filter hr
    simpa [Option.isSome_iff_ne_none] using hs

/-- A yearly-return row for (asset, year) exists exactly when the pair occurs
among the defined monthly rows' keys. -/
theorem exists_yearly_row_iff (rows : List MRow) (a : String) (y : Int) :
    (∃ row ∈ compute_yearly_returns rows, row.asset = a ∧ row.year = y) ↔
      (a, y) ∈ (rows.filter fun r => r.monthly_return.isSome).map
        (fun r => (r.asset, r.year)) := by
  unfold compute_yearly_returns
  simp only [List.mem_map, List.mem_insertionSort, List.mem_dedup]
  constructor
  · rintro ⟨row, ⟨k, hk, rfl⟩, ha, hy⟩
    have hkay : k = (a, y) := Prod.ext ha hy
    rw [hkay] at hk
    exact hk
  · intro hmem
    exact ⟨_, ⟨(a, y), hmem, rfl⟩, rfl, rfl⟩

/-- C4: a yearly-return row exists for (asset, year) exactly when that pair
has at least one defined monthly return; every row's value compounds that
group's defined monthly returns as the product of `(1 + r)` minus 1; and
monthly returns `[0.10, -0.05]` compound to `0.045`. -/
theorem c4_yearly_return_compounds_monthlies (rows : List MRow) (a : String)
    (y : Int) :
    (∀ rs : List Rat, compoundReturn rs = (rs.map (fun r => 1 + r)).prod - 1) ∧
    ((∃ row ∈ compute_yearly_returns rows, row.asset = a ∧ row.year = y) ↔
      groupReturns rows a y ≠ []) ∧
    (∀ row ∈ compute_yearly_returns rows, row.asset = a → row.year = y →
      row.yearly_return = compoundReturn (groupReturns rows a y)) ∧
    compoundReturn [1/10, -(1/20)] = 9/200 := by
  refine ⟨compoundReturn_eq_prod, ?_, ?_, by with_unfolding_all rfl⟩
  · rw [exists_yearly_row_iff, ← groupReturns_filter_isSome,
      groupReturns_ne_nil_iff]
  · intro row hrow ha hy
    simp only [compute_yearly_returns, List.mem_map] at hrow
    obtain ⟨k, hk, rfl⟩ := hrow
    have h1 : k.1 = a := ha
    have h2 : k.2 = y := hy
    show compoundReturn (groupReturns _ k.1 k.2) = _
    rw [h1, h2, groupReturns_filter_isSome]

/-- C4 witness: the membership criterion and the row-value equation of the
theorem, exercised on a concrete two-month table. -/
theorem c4_yearly_return_compounds_monthlies_witness :
    compoundReturn [1/10, -(1/20)] = 9/200 :=
  (c4_yearly_return_compounds_monthlies [] "A" 2020).2.2.2

/-- A sum of products of 0/1 indicators over a list counts the elements
satisfying both predicates. -/
theorem sum_indicator_mul_eq_length_filter (l : List Int) (p q : Int → Bool) :
    (l.map (fun y => (if p y then 1 else 0) * (if q y then 1 else 0))).sum =
      (l.filter (fun y => p y && q y)).length := by
  induction l with
  | nil => rfl
  | cons y t ih =>
      simp only [List.map_cons, List.sum_cons, List.filter_cons]
      cases hp : p y <;> cases hq : q y <;> simp [hp, hq] at ih ⊢ <;> omega

/-- Two lists of distinct elements with the same members have the same
length, phrased for a filter by membership. -/
theorem length_filter_mem_of_nodup (l s : List Int) (hl : l.Nodup)
    (hs : s.Nodup) (hsub : ∀ x ∈ s, x ∈ l) :
    (l.filter (fun x => decide (x ∈ s))).length = s.length := by
  have hperm : List.Perm (l.filter (fun x => decide (x ∈ s))) s := by
    apply List.perm_of_nodup_nodup_toFinset_eq (hl.filter _) hs
    ext x
    simp only [List.mem_toFinset, List.mem_filter, decide_eq_true_eq]
    exact ⟨fun hx => hx.2, fun hx => ⟨hsub x hx, hx⟩⟩
  exact hperm.length_eq

/-- The wide table's year labels have no duplicates. -/
theorem wideYears_nodup (yr : List YRow) : (wideYears yr).Nodup :=
  (List.perm_insertionSort _ _).symm.nodup (List.nodup_dedup _)

/-- A wide cell for asset `a` is defined at year `y` exactly when some yearly
row carries that (asset, year). -/
theorem wideCell_isSome_iff (yr : List YRow) (y : Int) (a : String) :
    (wideCell yr y a).isSome = true ↔
      y ∈ (yr.filter (fun r => decide (r.asset = a))).map (fun r => r.year) := by
  simp only [wideCell, Option.isSome_map', List.find?_isSome, List.mem_map,
    List.mem_filter, Bool.and_eq_true, decide_eq_true_eq]
  constructor
  · rintro ⟨r, hr, ha, hy⟩
    exact ⟨r, ⟨hr, ha⟩, hy⟩
  · rintro ⟨r, ⟨hr, ha⟩, hy⟩
    exact ⟨r, hr, ha, hy⟩

/-- C8: the overlap count is symmetric, each entry is the number of years in
which both assets have a defined wide cell (the indicator inner product), and
— for a yearly table with unique (asset, year) keys, as `groupby` produces —
the diagonal entry is the asset's total number of yearly-return rows. -/
theorem c8_overlap_symmetric_diagonal_counts (yr : List YRow) (a b : String)
    (h : (yr.map (fun r => (r.asset, r.year))).Nodup) :
    pairwise_overlap_counts yr a b = pairwise_overlap_counts yr b a ∧
    pairwise_overlap_counts yr a b =
      ((wideYears yr).filter (fun y =>
        (wideCell yr y a).isSome && (wideCell yr y b).isSome)).length ∧
    pairwise_overlap_counts yr a a =
      (yr.filter (fun r => decide (r.asset = a))).length := by
  have hcount : ∀ a' b', pairwise_overlap_counts yr a' b' =
      ((wideYears yr).filter (fun y =>
        (wideCell yr y a').isSome && (wideCell yr y b').isSome)).length :=
    fun a' b' => sum_indicator_mul_eq_length_filter (wideYears yr)
      (fun y => (wideCell yr y a').isSome) (fun y => (wideCell yr y b').isSome)
  refine ⟨?_, hcount a b, ?_⟩
  · unfold pairwise_overlap_counts
    congr 1
    exact List.map_congr_left fun y _ => Nat.mul_comm _ _
  · rw [hcount a a]
    have hband : ((wideYears yr).filter (fun y =>
        (wideCell yr y a).isSome && (wideCell yr y a).isSome)) =
        ((wideYears yr).filter (fun y => (wideCell yr y a).isSome)) :=
      List.filter_congr fun y _ => by cases (wideCell yr y a).isSome <;> rfl
    rw [hband]
    -- identify the defined years of `a` with the filtered rows' years
    have hS : ((wideYears yr).filter (fun y => (wideCell yr y a).isSome)) =
        ((wideYears yr).filter (fun y => decide (y ∈
          (yr.filter (fun r => decide (r.asset = a))).map (fun r => r.year)))) :=
      List.filter_congr fun y _ => by
        rw [Bool.eq_iff_iff, decide_eq_true_eq, ← wideCell_isSome_iff]
    rw [hS]
    have hSnodup : ((yr.filter (fun r => decide (r.asset = a))).map
        (fun r => r.year)).Nodup := by
      have hknodup : ((yr.filter (fun r => decide (r.asset = a))).map
          (fun r => (r.asset, r.year))).Nodup :=
        ((List.filter_sublist yr).map _).nodup h
      have hinj := List.inj_on_of_nodup_map hknodup
      refine List.Nodup.map_on ?_ (List.Nodup.of_map _ hknodup)
      intro r1 h1 r2 h2 hy
      have ha1 : r1.asset = a :=
        of_decide_eq_true (List.mem_filter.mp h1).2
      have ha2 : r2.asset = a :=
        of_decide_eq_true (List.mem_filter.mp h2).2
      exact hinj h1 h2 (by rw [Prod.ext_iff]; exact ⟨by rw [ha1, ha2], hy⟩)
    have hSsub : ∀ x ∈ (yr.filter (fun r => decide (r.asset = a))).map
        (fun r => r.year), x ∈ wideYears yr := by
      intro x hx
      obtain ⟨r, hr, rfl⟩ := List.mem_map.mp hx
      have : r ∈ yr := List.mem_of_mem_filter hr
      unfold wideYears
      rw [List.mem_insertionSort, List.mem_dedup]
      exact List.mem_map.mpr ⟨r, this, rfl⟩
    rw [length_filter_mem_of_nodup _ _ (wideYears_nodup yr) hSnodup hSsub,
      List.length_map]

/-- C2: the loader's output on a row whose `asset` cell is missing but whose
`date` and `price` parse — the row is RETAINED, with asset rendered as the
string `"nan"` (pandas `astype(str)` runs before `dropna`, so the `asset`
column never holds a missing value), contradicting the function's own
docstring "rows with missing date/asset/price removed"; in general the kept
rows are exactly those whose `date` and `price` parse, sorted by
(asset, date). -/
theorem c2_loader_keeps_missing_asset_rows :
    load_prices [{ date := some { year := 2020, sub := 102 }, asset := none,
                   price := some 100, category := none }] =
      [{ date := { year := 2020, sub := 102 }, asset := "nan", price := 100,
         category := "nan" }] ∧
    (∀ raw : List RawRow,
      List.Perm (load_prices raw)
        (raw.filterMap (fun r =>
          match r.date, r.price with
          | some d, some p =>
              some { date := d, asset := strOfCell r.asset, price := p,
                     category := strOfCell r.category }
          | _, _ => none)) ∧
      List.Sorted rowLe (load_prices raw)) := by
  refine ⟨by with_unfolding_all rfl, fun raw => ⟨?_, ?_⟩⟩
  · exact List.perm_insertionSort _ _
  · exact List.sorted_insertionSort _ _

/-- The concrete price table behind the C1 counterexample: both assets have
one defined monthly return in 2020. -/
def tblC1 : List PriceRow :=
  [{ date := { year := 2020, sub := 1 }, asset := "A", price := 1, category := "c" },
   { date := { year := 2020, sub := 2 }, asset := "A", price := 2, category := "c" },
   { date := { year := 2020, sub := 1 }, asset := "B", price := 1, category := "c" },
   { date := { year := 2020, sub := 2 }, asset := "B", price := 3, category := "c" }]

/-- C1 counterexample: with caller order `["B", "A"]`, both emitted matrices
key their axes `["A", "B"]` — the wide table's sorted column order, not the
caller-supplied order. -/
theorem c1_matrices_ignore_caller_order :
    (compute_payload tblC1 ["B", "A"] 2020 2020 100 24).toOption.map
        (fun p => p.pearsonMatrix.map (fun m => m.map Prod.fst)) =
      some (some ["A", "B"]) ∧
    (compute_payload tblC1 ["B", "A"] 2020 2020 100 24).toOption.map
        (fun p => p.overlapYears.map (fun m => m.map Prod.fst)) =
      some (some ["A", "B"]) ∧
    ["A", "B"] ≠ ["B", "A"] :=
  ⟨by with_unfolding_all rfl, by with_unfolding_all rfl, by decide⟩

/-- C1 (amended): whenever the matrices are present, their outer and inner
key sequences both equal the wide table's column order — the distinct assets
of the year-filtered yearly table, sorted ascending — which coincides with
the caller's order only when that order is itself sorted. -/
theorem c1_matrix_axes_follow_wide_order (df_prices : List PriceRow)
    (assets : List String) (ys ye : Int) (cap : Rat) (W : Nat) (p : Payload)
    (hp : compute_payload df_prices assets ys ye cap W = .ok p) :
    (∀ m, p.pearsonMatrix = some m →
      m.map Prod.fst = wideCols (selectedYearly df_prices assets ys ye) ∧
      ∀ q ∈ m, q.2.map Prod.fst =
        wideCols (selectedYearly df_prices assets ys ye)) ∧
    (∀ m, p.overlapYears = some m →
      m.map Prod.fst = wideCols (selectedYearly df_prices assets ys ye) ∧
      ∀ q ∈ m, q.2.map Prod.fst =
        wideCols (selectedYearly df_prices assets ys ye)) ∧
    List.Sorted (· ≤ ·) (wideCols (selectedYearly df_prices assets ys ye)) := by
  simp only [compute_payload] at hp
  obtain ⟨rolling, _, rfl⟩ := (except_map_eq_ok _ _ _).mp hp
  refine ⟨?_, ?_, List.sorted_insertionSort _ _⟩
  · intro m hm
    simp only [pearsonMatrixOf] at hm
    split at hm
    · obtain rfl := Option.some.inj hm
      constructor
      · rw [List.map_map]
        exact List.map_id _
      · intro q hq
        obtain ⟨a, _, rfl⟩ := List.mem_map.mp hq
        rw [List.map_map]
        exact List.map_id _
    · exact absurd hm (by simp)
  · intro m hm
    simp only [overlapMatrixOf] at hm
    split at hm
    · obtain rfl := Option.some.inj hm
      constructor
      · rw [List.map_map]
        exact List.map_id _
      · intro q hq
        obtain ⟨a, _, rfl⟩ := List.mem_map.mp hq
        rw [List.map_map]
        exact List.map_id _
    · exact absurd hm (by simp)

/-- C1 amended witness: the axis order of the concrete counterexample table,
with the success hypothesis discharged by evaluation. -/
theorem c1_matrix_axes_follow_wide_order_witness :
    List.Sorted (· ≤ ·) (wideCols (selectedYearly tblC1 ["B", "A"] 2020 2020)) :=
  (c1_matrix_axes_follow_wide_order tblC1 ["B", "A"] 2020 2020 100 24
    (payloadD tblC1 ["B", "A"] 2020 2020 100 24)
    (by with_unfolding_all rfl)).2.2

/-- C3 counterexample: a one-asset cleaned table, a two-asset selection whose
second asset has no rows, and `yearStart > yearEnd`: `compute_payload` raises
(the rolling-correlation column selection fails) instead of returning an
empty payload, because the rolling series is built before the year filter. -/
theorem c3_inverted_range_can_still_raise :
    (compute_payload
        [{ date := { year := 2020, sub := 1 }, asset := "A", price := 1,
           category := "c" }]
        ["A", "B"] 2021 2020 100 24).toOption = none := by
  with_unfolding_all rfl

/-- With an inverted year range, any successful rolling section is `none`:
the year filter empties the series, which is emitted as null. -/
theorem rollingResult_ok_none (df_m : List MRow) (assets : List String)
    (ys ye : Int) (W : Nat) (h : ye < ys) (r : Option (List (Int × CorrVal)))
    (hr : rollingResult df_m assets ys ye W = .ok r) : r = none := by
  rcases assets with _ | ⟨a1, _ | ⟨a2, _ | ⟨a3, t⟩⟩⟩
  · exact (Except.ok.inj hr).symm
  · exact (Except.ok.inj hr).symm
  · simp only [rollingResult] at hr
    obtain ⟨rc, _, rfl⟩ := (except_map_eq_ok _ _ _).mp hr
    have hnil : rc.filter (fun p =>
        decide (ys ≤ p.1) && decide (p.1 ≤ ye)) = [] := by
      rw [List.filter_eq_nil_iff]
      intro q _
      simp only [Bool.and_eq_true, decide_eq_true_eq, not_and]
      intro h1
      omega
    simp [hnil]
  · exact (Except.ok.inj hr).symm

/-- A selection that is not a two-element list never reaches the rolling
pivot, so the rolling section is always the successful `none`. -/
theorem rollingResult_ok_of_ne_two (df_m : List MRow) (assets : List String)
    (ys ye : Int) (W : Nat) (h : assets.length ≠ 2) :
    rollingResult df_m assets ys ye W = .ok none := by
  rcases assets with _ | ⟨a1, _ | ⟨a2, _ | ⟨a3, t⟩⟩⟩
  · rfl
  · rfl
  · exact absurd rfl h
  · rfl

/-- C3 (amended): with `yearStart > yearEnd`, any payload that
`compute_payload` returns has an empty `yearlyReturns` list and null
rolling/Pearson/overlap sections; and it does return one whenever the asset
selection is not exactly two assets — but a two-asset selection can still
raise in the rolling-correlation reshape (see the counterexample), because
that reshape runs before the year-range filter. -/
theorem c3_inverted_range_yields_empty_payload (df_prices : List PriceRow)
    (assets : List String) (ys ye : Int) (cap : Rat) (W : Nat)
    (h : ye < ys) :
    (∀ p, compute_payload df_prices assets ys ye cap W = .ok p →
      p.yearlyReturns = [] ∧ p.rollingCorrelation = none ∧
      p.pearsonMatrix = none ∧ p.overlapYears = none) ∧
    (assets.length ≠ 2 →
      ∃ p, compute_payload df_prices assets ys ye cap W = .ok p) := by
  have hyr : selectedYearly df_prices assets ys ye = [] := by
    unfold selectedYearly
    rw [List.filter_eq_nil_iff]
    intro r _
    simp only [Bool.and_eq_true, decide_eq_true_eq, not_and]
    intro h1
    omega
  constructor
  · intro p hp
    simp only [compute_payload] at hp
    obtain ⟨rolling, hre, rfl⟩ := (except_map_eq_ok _ _ _).mp hp
    dsimp only
    refine ⟨?_, rollingResult_ok_none _ _ _ _ _ h _ hre, ?_, ?_⟩
    · rw [hyr]
      rfl
    · show pearsonMatrixOf (selectedYearly _ _ _ _) = none
      rw [hyr]
      rfl
    · show overlapMatrixOf (selectedYearly _ _ _ _) = none
      rw [hyr]
      rfl
  · intro hlen
    refine ⟨{ assets := assets, yearRange := (ys, ye), capPct := cap,
              rollingWindowMonths := W,
              yearlyReturns := List.insertionSort dispLe
                (cap_yearly_returns_for_display
                  (selectedYearly df_prices assets ys ye) cap),
              rollingCorrelation := none,
              pearsonMatrix := pearsonMatrixOf (selectedYearly df_prices assets ys ye),
              overlapYears := overlapMatrixOf (selectedYearly df_prices assets ys ye) },
      ?_⟩
    simp only [compute_payload]
    rw [rollingResult_ok_of_ne_two _ _ _ _ _ hlen]
    rfl

/-- C3 amended witness: a one-asset selection with inverted range returns a
payload with empty and null sections. -/
theorem c3_inverted_range_yields_empty_payload_witness :
    (payloadD [] ["A"] 2021 2020 100 24).yearlyReturns = [] ∧
    (payloadD [] ["A"] 2021 2020 100 24).rollingCorrelation = none ∧
    (payloadD [] ["A"] 2021 2020 100 24).pearsonMatrix = none ∧
    (payloadD [] ["A"] 2021 2020 100 24).overlapYears = none :=
  (c3_inverted_range_yields_empty_payload [] ["A"] 2021 2020 100 24
    (by norm_num)).1
    (payloadD [] ["A"] 2021 2020 100 24) (by with_unfolding_all rfl)

/-- A concrete three-row yearly table used by witnesses. -/
def yrW : List YRow :=
  [{ asset := "A", year := 2020, yearly_return := 1 },
   { asset := "A", year := 2021, yearly_return := 2 },
   { asset := "B", year := 2020, yearly_return := 3 }]

/-- C8 witness: the theorem on a concrete three-row yearly table, its
unique-keys hypothesis discharged by evaluation. -/
theorem c8_overlap_symmetric_diagonal_counts_witness :
    pairwise_overlap_counts yrW "A" "A" =
      (yrW.filter (fun r => decide (r.asset = "A"))).length :=
  (c8_overlap_symmetric_diagonal_counts yrW "A" "B"
    (of_decide_eq_true (by with_unfolding_all rfl))).2.2

/-- The aligned-pair count of two assets equals their indicator inner
product, pointwise over any year list. -/
theorem filterMap_both_length (l : List Int) (f g : Int → Option Rat) :
    (l.filterMap (fun y =>
      match f y, g y with
      | some x, some z => some (x, z)
      | _, _ => none)).length =
      (l.map (fun y =>
        (if (f y).isSome then 1 else 0) *
          (if (g y).isSome then 1 else 0))).sum := by
  induction l with
  | nil => rfl
  | cons y t ih =>
      simp only [List.filterMap_cons, List.map_cons, List.sum_cons]
      rcases hf : f y with _ | x <;> rcases hg : g y with _ | z <;>
        simp [hf, hg, ih]
      all_goals omega

/-- `overlapPairs` has exactly `pairwise_overlap_counts` elements. -/
theorem overlapPairs_length (yr : List YRow) (a b : String) :
    (overlapPairs yr a b).length = pairwise_overlap_counts yr a b :=
  filterMap_both_length (wideYears yr) (fun y => wideCell yr y a)
    (fun y => wideCell yr y b)

/-- The wide table's column labels have no duplicates. -/
theorem wideCols_nodup (yr : List YRow) : (wideCols yr).Nodup :=
  (List.perm_insertionSort _ _).symm.nodup (List.nodup_dedup _)

/-- Membership in the wide table's column labels. -/
theorem mem_wideCols (yr : List YRow) (a : String) :
    a ∈ wideCols yr ↔ ∃ r ∈ yr, r.asset = a := by
  unfold wideCols
  rw [List.mem_insertionSort, List.mem_dedup, List.mem_map]

/-- Every yearly row's asset comes from some input row. -/
theorem yearly_asset_from_rows (rows : List MRow) :
    ∀ row ∈ compute_yearly_returns rows, ∃ r ∈ rows, r.asset = row.asset := by
  intro row hrow
  simp only [compute_yearly_returns, List.mem_map, List.mem_insertionSort,
    List.mem_dedup] at hrow
  obtain ⟨k, hk, rfl⟩ := hrow
  obtain ⟨r, hr, hkey⟩ := hk
  exact ⟨r, List.mem_of_mem_filter hr, by rw [← hkey]⟩

/-- Wide columns of the selected yearly table are selected assets. -/
theorem wideCols_selected_sub (df_prices : List PriceRow)
    (assets : List String) (ys ye : Int) :
    ∀ s ∈ wideCols (selectedYearly df_prices assets ys ye), s ∈ assets := by
  intro s hs
  obtain ⟨row, hrow, rfl⟩ := (mem_wideCols _ _).mp hs
  unfold selectedYearly at hrow
  obtain ⟨r, hr, ha⟩ :=
    yearly_asset_from_rows _ _ (List.mem_of_mem_filter hrow)
  have hc := List.mem_filter.mp hr
  rw [← ha]
  exact of_decide_eq_true (by simpa [List.contains_iff_exists_mem_beq] using hc.2)

/-- A duplicate-free list all of whose members coincide has at most one
element. -/
theorem length_le_one_of_nodup_of_all_eq {l : List String} {a : String}
    (hn : l.Nodup) (ha : ∀ x ∈ l, x = a) : l.length ≤ 1 := by
  rcases l with _ | ⟨x, _ | ⟨y, t⟩⟩
  · simp
  · simp
  · exfalso
    have hx := ha x (by simp)
    have hy := ha y (by simp)
    rw [List.nodup_cons] at hn
    exact hn.1 (by simp [hx, hy])

/-- C6: the Pearson and overlap sections are null exactly when fewer than two
assets survive into the wide table (the guard is the wide column count); when
the matrices are present, any pair of surviving assets with fewer than 2
overlapping years still has its cell present in the matrix but with an
undefined value; and a one-asset selection always yields both sections
null. -/
theorem c6_matrix_guard_and_undefined_cells (df_prices : List PriceRow)
    (assets : List String) (ys ye : Int) (cap : Rat) (W : Nat) (p : Payload)
    (hp : compute_payload df_prices assets ys ye cap W = .ok p) :
    (p.pearsonMatrix = none ↔
      (wideCols (selectedYearly df_prices assets ys ye)).length < 2) ∧
    (p.overlapYears = none ↔
      (wideCols (selectedYearly df_prices assets ys ye)).length < 2) ∧
    (∀ m, p.pearsonMatrix = some m → ∀ a b,
      a ∈ wideCols (selectedYearly df_prices assets ys ye) →
      b ∈ wideCols (selectedYearly df_prices assets ys ye) →
      pairwise_overlap_counts (selectedYearly df_prices assets ys ye) a b < 2 →
      ∃ row, (a, row) ∈ m ∧ (b, (none : Option CorrVal)) ∈ row) ∧
    (assets.length = 1 → p.pearsonMatrix = none ∧ p.overlapYears = none) := by
  simp only [compute_payload] at hp
  obtain ⟨rolling, hre, rfl⟩ := (except_map_eq_ok _ _ _).mp hp
  dsimp only
  have h1 : pearsonMatrixOf (selectedYearly df_prices assets ys ye) = none ↔
      (wideCols (selectedYearly df_prices assets ys ye)).length < 2 := by
    unfold pearsonMatrixOf
    by_cases hlen : 2 ≤ (wideCols (selectedYearly df_prices assets ys ye)).length
    · simp only [if_pos hlen]
      simp only [Option.some_ne_none, false_iff]
      omega
    · simp only [if_neg hlen, true_iff]
      omega
  have h2 : overlapMatrixOf (selectedYearly df_prices assets ys ye) = none ↔
      (wideCols (selectedYearly df_prices assets ys ye)).length < 2 := by
    unfold overlapMatrixOf
    by_cases hlen : 2 ≤ (wideCols (selectedYearly df_prices assets ys ye)).length
    · simp only [if_pos hlen]
      simp only [Option.some_ne_none, false_iff]
      omega
    · simp only [if_neg hlen, true_iff]
      omega
  refine ⟨h1, h2, ?_, ?_⟩
  · intro m hm a b ha hb hov
    simp only [pearsonMatrixOf] at hm
    split at hm
    · obtain rfl := Option.some.inj hm
      refine ⟨_, List.mem_map.mpr ⟨a, ha, rfl⟩, List.mem_map.mpr ⟨b, hb, ?_⟩⟩
      have hcell : pearsonCell (selectedYearly df_prices assets ys ye) a b =
          none := by
        unfold pearsonCell
        rw [if_pos (by rw [overlapPairs_length]; exact hov)]
      rw [hcell]
    · exact absurd hm (by simp)
  · intro hone
    have hle : (wideCols (selectedYearly df_prices assets ys ye)).length < 2 := by
      rcases assets with _ | ⟨a0, _ | ⟨a1, t⟩⟩
      · simp at hone
      · have := length_le_one_of_nodup_of_all_eq
          (wideCols_nodup (selectedYearly df_prices [a0] ys ye))
          (fun x hx => by
            have := wideCols_selected_sub df_prices [a0] ys ye x hx
            simpa using this)
        omega
      · simp at hone
    exact ⟨h1.mpr hle, h2.mpr hle⟩

/-- The concrete table behind the C6 witness: asset A has yearly returns in
2020 and 2021, asset B only in 2021, so their overlap is a single year. -/
def tblC6 : List PriceRow :=
  [{ date := { year := 2020, sub := 1 }, asset := "A", price := 1, category := "c" },
   { date := { year := 2020, sub := 2 }, asset := "A", price := 2, category := "c" },
   { date := { year := 2021, sub := 1 }, asset := "A", price := 1, category := "c" },
   { date := { year := 2021, sub := 2 }, asset := "A", price := 2, category := "c" },
   { date := { year := 2021, sub := 1 }, asset := "B", price := 1, category := "c" },
   { date := { year := 2021, sub := 2 }, asset := "B", price := 3, category := "c" }]

/-- C6 witness: the guard equivalence at a concrete two-asset payload whose
pair overlaps in only one year, with the success hypothesis discharged by
evaluation. -/
theorem c6_matrix_guard_and_undefined_cells_witness :
    (payloadD tblC6 ["A", "B"] 2020 2021 100 24).pearsonMatrix = none ↔
      (wideCols (selectedYearly tblC6 ["A", "B"] 2020 2021)).length < 2 :=
  (c6_matrix_guard_and_undefined_cells tblC6 ["A", "B"] 2020 2021 100 24
    (payloadD tblC6 ["A", "B"] 2020 2021 100 24)
    (by with_unfolding_all rfl)).1

/-- Reference annotation of a price series with its percentage changes:
each element is paired with `price / previous price - 1`, the first with the
change from `prev` (none at the start of a group). -/
def annotate : Option Rat → List Rat → List (Rat × Option Rat)
  | _, [] => []
  | prev, p :: ps => (p, prev.map fun q => p / q - 1) :: annotate (some p) ps

/-- Within one asset, `monthlyGo` realises exactly the `annotate` scheme on
that asset's price series, seeded with the last price seen so far. -/
theorem monthlyGo_filter_pairs (rows : List PriceRow)
    (last : String → Option Rat) (a : String) :
    ((monthlyGo last rows).filter (fun r => decide (r.asset = a))).map
        (fun r => (r.price, r.monthly_return)) =
      annotate (last a)
        ((rows.filter (fun r => decide (r.asset = a))).map (fun r => r.price)) := by
  induction rows generalizing last with
  | nil => rfl
  | cons r rest ih =>
      by_cases hra : r.asset = a
      · simp only [monthlyGo]
        rw [List.filter_cons_of_pos (by simpa using hra),
          List.filter_cons_of_pos (by simpa using hra)]
        simp only [List.map_cons, annotate]
        congr 1
        · rw [hra]
        · rw [ih]
          congr 1
          simp [hra]
      · simp only [monthlyGo]
        rw [List.filter_cons_of_neg (by simpa using hra),
          List.filter_cons_of_neg (by simpa using hra)]
        rw [ih]
        congr 1
        have hne : a ≠ r.asset := fun hc => hra hc.symm
        simp [hne]

/-- `monthlyGo` keeps the dates of an asset's rows unchanged and in order. -/
theorem monthlyGo_filter_dates (rows : List PriceRow)
    (last : String → Option Rat) (a : String) :
    ((monthlyGo last rows).filter (fun r => decide (r.asset = a))).map
        (fun r => r.date) =
      (rows.filter (fun r => decide (r.asset = a))).map (fun r => r.date) := by
  induction rows generalizing last with
  | nil => rfl
  | cons r rest ih =>
      by_cases hra : r.asset = a
      · simp only [monthlyGo]
        rw [List.filter_cons_of_pos (by simpa using hra),
          List.filter_cons_of_pos (by simpa using hra)]
        simp only [List.map_cons]
        rw [ih]
      · simp only [monthlyGo]
        rw [List.filter_cons_of_neg (by simpa using hra),
          List.filter_cons_of_neg (by simpa using hra)]
        rw [ih]

/-- The head of an annotated series pairs the first price with the seeded
previous price's change. -/
theorem annotate_zero (prev : Option Rat) (ps : List Rat) :
    (annotate prev ps)[0]? =
      ps[0]?.map (fun p => (p, prev.map (fun q => p / q - 1))) := by
  cases ps <;> simp [annotate]

/-- Every later element of an annotated series pairs its price with the
change from the immediately preceding price. -/
theorem annotate_succ (prev : Option Rat) (ps : List Rat) (i : Nat)
    (p q : Rat) (hp : ps[i]? = some p) (hq : ps[i + 1]? = some q) :
    (annotate prev ps)[i + 1]? = some (q, some (q / p - 1)) := by
  induction ps generalizing i prev with
  | nil => simp at hp
  | cons r tl ih =>
      cases i with
      | zero =>
          rw [List.getElem?_cons_zero, Option.some.injEq] at hp
          rw [List.getElem?_cons_succ] at hq
          simp only [annotate, List.getElem?_cons_succ]
          rw [annotate_zero, hq]
          simp [hp]
      | succ j =>
          rw [List.getElem?_cons_succ] at hp hq
          simp only [annotate, List.getElem?_cons_succ]
          exact ih (some r) j hp hq

/-- Annotation preserves the underlying price series. -/
theorem annotate_map_fst (prev : Option Rat) (ps : List Rat) :
    (annotate prev ps).map Prod.fst = ps := by
  induction ps generalizing prev with
  | nil => rfl
  | cons p tl ih => simp [annotate, ih]

/-- Dates of one asset's rows in a (asset, date)-sorted cleaned table are
chronologically sorted. -/
theorem filtered_dates_sorted (tbl : List PriceRow) (a : String)
    (hs : List.Sorted rowLe tbl) :
    List.Sorted dateLe
      ((tbl.filter (fun r => decide (r.asset = a))).map (fun r => r.date)) := by
  apply List.Pairwise.map
  · intro r1 r2 h12
    exact h12
  · have hpair : List.Pairwise rowLe (tbl.filter (fun r => decide (r.asset = a))) :=
      hs.sublist (List.filter_sublist tbl)
    apply List.Pairwise.imp_of_mem ?_ hpair
    intro r1 r2 h1 h2 h12
    have ha1 : r1.asset = a := of_decide_eq_true (List.mem_filter.mp h1).2
    have ha2 : r2.asset = a := of_decide_eq_true (List.mem_filter.mp h2).2
    rcases h12 with hlt | ⟨_, hd⟩
    · rw [ha1, ha2] at hlt
      exact absurd hlt (lt_irrefl a)
    · exact hd

/-- C9: in the monthly table computed from a cleaned (loader-produced) table,
each asset's rows are in date order, the first observation of the asset has
an undefined monthly return, and every later observation's return is
`price[i] / price[i-1] - 1` against the immediately preceding observation of
the same asset. -/
theorem c9_monthly_return_first_none_then_ratio (raw : List RawRow)
    (a : String) :
    List.Sorted dateLe
      (((compute_monthly_returns (load_prices raw)).filter
          (fun r => decide (r.asset = a))).map (fun r => r.date)) ∧
    (∀ p, ((compute_monthly_returns (load_prices raw)).filter
        (fun r => decide (r.asset = a)))[0]? = some p →
      p.monthly_return = none) ∧
    (∀ i p q,
      ((compute_monthly_returns (load_prices raw)).filter
        (fun r => decide (r.asset = a)))[i]? = some p →
      ((compute_monthly_returns (load_prices raw)).filter
        (fun r => decide (r.asset = a)))[i + 1]? = some q →
      q.monthly_return = some (q.price / p.price - 1)) := by
  set sub := (compute_monthly_returns (load_prices raw)).filter
    (fun r => decide (r.asset = a)) with hsub
  have hpairs : sub.map (fun r => (r.price, r.monthly_return)) =
      annotate none
        (((load_prices raw).filter (fun r => decide (r.asset = a))).map
          (fun r => r.price)) :=
    monthlyGo_filter_pairs (load_prices raw) (fun _ => none) a
  have hdates : sub.map (fun r => r.date) =
      ((load_prices raw).filter (fun r => decide (r.asset = a))).map
        (fun r => r.date) :=
    monthlyGo_filter_dates (load_prices raw) (fun _ => none) a
  have hfst : ((load_prices raw).filter (fun r => decide (r.asset = a))).map
      (fun r => r.price) = sub.map (fun r => r.price) := by
    rw [← annotate_map_fst (none : Option Rat)
      (((load_prices raw).filter (fun r => decide (r.asset = a))).map
        (fun r => r.price)), ← hpairs, List.map_map]
    rfl
  refine ⟨?_, ?_, ?_⟩
  · rw [hdates]
    exact filtered_dates_sorted _ _ (List.sorted_insertionSort _ _)
  · intro p hp
    have h0 : (sub.map (fun r => (r.price, r.monthly_return)))[0]? =
        some (p.price, p.monthly_return) := by
      rw [List.getElem?_map, hp]
      rfl
    rw [hpairs, annotate_zero, hfst, List.getElem?_map, hp] at h0
    simp at h0
    exact h0.symm
  · intro i p q hp hq
    have hmp : (((load_prices raw).filter (fun r => decide (r.asset = a))).map
        (fun r => r.price))[i]? = some p.price := by
      rw [hfst, List.getElem?_map, hp]
      rfl
    have hmq : (((load_prices raw).filter (fun r => decide (r.asset = a))).map
        (fun r => r.price))[i + 1]? = some q.price := by
      rw [hfst, List.getElem?_map, hq]
      rfl
    have h1 : (sub.map (fun r => (r.price, r.monthly_return)))[i + 1]? =
        some (q.price, q.monthly_return) := by
      rw [List.getElem?_map, hq]
      rfl
    rw [hpairs, annotate_succ _ _ i p.price q.price hmp hmq] at h1
    simp only [Option.some.injEq, Prod.mk.injEq] at h1
    exact h1.2.symm

/-- A concrete two-row raw table for the C9 witness. -/
def rawW : List RawRow :=
  [{ date := some { year := 2020, sub := 1 }, asset := some "A",
     price := some 1, category := some "c" },
   { date := some { year := 2020, sub := 2 }, asset := some "A",
     price := some 2, category := some "c" }]

/-- The two monthly rows the pipeline derives from `rawW`. -/
def m0W : MRow :=
  { date := { year := 2020, sub := 1 }, asset := "A", price := 1,
    category := "c", monthly_return := none, year := 2020 }

/-- Second derived monthly row (return `2/1 - 1 = 1`). -/
def m1W : MRow :=
  { date := { year := 2020, sub := 2 }, asset := "A", price := 2,
    category := "c", monthly_return := some 1, year := 2020 }

/-- C9 witness: on the concrete table, the first observation's return is
undefined and the second equals its price ratio minus one, via the theorem
with its index hypotheses discharged by evaluation. -/
theorem c9_monthly_return_first_none_then_ratio_witness :
    m0W.monthly_return = none ∧
    m1W.monthly_return = some (m1W.price / m0W.price - 1) :=
  ⟨(c9_monthly_return_first_none_then_ratio rawW "A").2.1 m0W
      (by with_unfolding_all rfl),
    (c9_monthly_return_first_none_then_ratio rawW "A").2.2 0 m0W m1W
      (by with_unfolding_all rfl) (by with_unfolding_all rfl)⟩

/-- Projecting the keys out of a keyed `filterMap` yields a filter of the key
list. -/
theorem map_fst_filterMap_keyed {β : Type} (l : List Int)
    (f : Int → Option (Int × β)) (hf : ∀ y v, f y = some v → v.1 = y) :
    (l.filterMap f).map Prod.fst = l.filter (fun y => (f y).isSome) := by
  induction l with
  | nil => rfl
  | cons y t ih =>
      rcases hfy : f y with _ | v
      · simp [List.filterMap_cons, List.filter_cons, hfy, ih]
      · simp [List.filterMap_cons, List.filter_cons, hfy, hf y v hfy, ih]

/-- The year-end series has at most one point per calendar year. -/
theorem perYearLast_years_nodup (l : List (Date × CorrVal)) :
    ((perYearLast l).map Prod.fst).Nodup := by
  unfold perYearLast
  rw [map_fst_filterMap_keyed]
  · exact ((List.perm_insertionSort _ _).symm.nodup
      (List.nodup_dedup _)).filter _
  · intro y v hv
    obtain ⟨dv, _, hmap⟩ := Option.map_eq_some'.mp hv
    rw [← hmap]

/-- Every point of the year-end series is the last raw rolling value whose
window-end date falls in that point's year. -/
theorem perYearLast_mem (l : List (Date × CorrVal)) (yv : Int × CorrVal)
    (h : yv ∈ perYearLast l) :
    ∃ dv, (l.filter (fun p => decide (p.1.year = yv.1))).getLast? = some dv ∧
      dv ∈ l ∧ dv.2 = yv.2 := by
  unfold perYearLast at h
  obtain ⟨y, _, hf⟩ := List.mem_filterMap.mp h
  obtain ⟨dv, hdv, hmap⟩ := Option.map_eq_some'.mp hf
  have hy : yv.1 = y := by rw [← hmap]
  have hv : yv.2 = dv.2 := by rw [← hmap]
  refine ⟨dv, ?_, ?_, hv.symm⟩
  · rw [hy]
    exact hdv
  · exact List.mem_of_mem_filter (List.mem_of_getLast?_eq_some hdv)

/-- A full window ending at a valid index has exactly `W` observations. -/
theorem windowAt_length (aligned : List APoint) (W i : Nat)
    (h1 : i < aligned.length) (h2 : W ≤ i + 1) :
    (windowAt aligned W i).length = W := by
  unfold windowAt
  rw [List.length_map, List.length_take, List.length_drop]
  omega

/-- Every raw rolling value arises from one full `W`-window of consecutive
aligned observations ending at its date's index — no partial windows. -/
theorem rawRolling_mem (aligned : List APoint) (W : Nat) (dv : Date × CorrVal)
    (h : dv ∈ rawRolling aligned W) :
    ∃ i, i < aligned.length ∧ W ≤ i + 1 ∧ (windowAt aligned W i).length = W ∧
      windowCorr (windowAt aligned W i) = some dv.2 ∧
      dv.1 = (aligned.getD i dummyAPoint).date := by
  unfold rawRolling at h
  obtain ⟨i, hi, hf⟩ := List.mem_filterMap.mp h
  rw [List.mem_range] at hi
  by_cases hw : W ≤ i + 1
  · rw [if_pos hw] at hf
    obtain ⟨v, hv, hmap⟩ := Option.map_eq_some'.mp hf
    refine ⟨i, hi, hw, windowAt_length _ _ _ hi hw, ?_, ?_⟩
    · rw [hv, ← hmap]
    · rw [← hmap]
  · rw [if_neg hw] at hf
    exact absurd hf (by simp)

/-- C5: a successful rolling-correlation computation yields at most one point
per calendar year, each point carrying the last raw windowed value whose
window-end date falls in its year, every raw value coming from exactly one
full window of `W` consecutive aligned observations; and in the payload of a
two-asset request the section is null exactly when the range-filtered series
is empty — an empty series is never emitted as an empty list. -/
theorem c5_rolling_corr_year_end_shape (dfM : List MRow) (a1 a2 : String)
    (W : Nat) (rc : List (Int × CorrVal))
    (hok : compute_rolling_corr_year_end dfM a1 a2 W = .ok rc) :
    (rc.map Prod.fst).Nodup ∧
    (∀ yv ∈ rc, ∃ dv,
      ((rawRolling (alignedSeries dfM a1 a2) W).filter
          (fun p => decide (p.1.year = yv.1))).getLast? = some dv ∧
        dv ∈ rawRolling (alignedSeries dfM a1 a2) W ∧ dv.2 = yv.2) ∧
    (∀ dv ∈ rawRolling (alignedSeries dfM a1 a2) W, ∃ i,
      i < (alignedSeries dfM a1 a2).length ∧ W ≤ i + 1 ∧
      (windowAt (alignedSeries dfM a1 a2) W i).length = W ∧
      windowCorr (windowAt (alignedSeries dfM a1 a2) W i) = some dv.2 ∧
      dv.1 = ((alignedSeries dfM a1 a2).getD i dummyAPoint).date) ∧
    (∀ (df_prices : List PriceRow) (ys ye : Int) (cap : Rat) (p : Payload)
        (rc2 : List (Int × CorrVal)),
      compute_payload df_prices [a1, a2] ys ye cap W = .ok p →
      compute_rolling_corr_year_end (compute_monthly_returns df_prices) a1 a2 W
        = .ok rc2 →
      p.rollingCorrelation ≠ some [] ∧
      (p.rollingCorrelation = none ↔
        rc2.filter (fun v => decide (ys ≤ v.1) && decide (v.1 ≤ ye)) = [])) := by
  have hrc : rc = perYearLast (rawRolling (alignedSeries dfM a1 a2) W) := by
    simp only [compute_rolling_corr_year_end] at hok
    split_ifs at hok with h1 h2
    exact (Except.ok.inj hok).symm
  refine ⟨?_, ?_, fun dv hdv => rawRolling_mem _ _ _ hdv, ?_⟩
  · rw [hrc]
    exact perYearLast_years_nodup _
  · intro yv hyv
    rw [hrc] at hyv
    exact perYearLast_mem _ _ hyv
  · intro df_prices ys ye cap p rc2 hp hok2
    simp only [compute_payload] at hp
    obtain ⟨rolling, hre, rfl⟩ := (except_map_eq_ok _ _ _).mp hp
    simp only [rollingResult] at hre
    obtain ⟨rc2', hre2, hroll⟩ := (except_map_eq_ok _ _ _).mp hre
    rw [hok2] at hre2
    obtain rfl := Except.ok.inj hre2
    dsimp only
    by_cases hemp : (rc2.filter (fun v =>
        decide (ys ≤ v.1) && decide (v.1 ≤ ye))).isEmpty
    · rw [hroll, if_pos hemp]
      rw [List.isEmpty_eq_true] at hemp
      simp [hemp]
    · rw [hroll, if_neg hemp]
      have hne : rc2.filter (fun p =>
          decide (ys ≤ p.1) && decide (p.1 ≤ ye)) ≠ [] := by
        intro hc
        rw [hc] at hemp
        simp at hemp
      refine ⟨fun hc => hne (Option.some.inj hc), ?_⟩
      constructor
      · intro hc
        exact absurd hc (by simp)
      · intro hc
        exact absurd hc hne

/-- The concrete table behind the C5 witness: two assets with four aligned
months in 2020. -/
def tblC5 : List PriceRow :=
  [{ date := { year := 2020, sub := 1 }, asset := "A", price := 1, category := "c" },
   { date := { year := 2020, sub := 2 }, asset := "A", price := 2, category := "c" },
   { date := { year := 2020, sub := 3 }, asset := "A", price := 1, category := "c" },
   { date := { year := 2020, sub := 4 }, asset := "A", price := 2, category := "c" },
   { date := { year := 2020, sub := 1 }, asset := "B", price := 1, category := "c" },
   { date := { year := 2020, sub := 2 }, asset := "B", price := 3, category := "c" },
   { date := { year := 2020, sub := 3 }, asset := "B", price := 1, category := "c" },
   { date := { year := 2020, sub := 4 }, asset := "B", price := 3, category := "c" }]

/-- C5 witness: the year-uniqueness conclusion on the concrete two-asset
table with window 2, the success hypothesis discharged by evaluation. -/
theorem c5_rolling_corr_year_end_shape_witness :
    (([((2020 : Int), ({ num := 2, denSq := 4 } : CorrVal))]).map Prod.fst).Nodup :=
  (c5_rolling_corr_year_end_shape (compute_monthly_returns tblC5) "A" "B" 2
    [(2020, { num := 2, denSq := 4 })] (by with_unfolding_all rfl)).1

/-- Rounding a real to 6 decimal places moves it by at most `5e-7`. -/
theorem round6_close (x : Real) :
    |((round (x * 10 ^ 6) : Int) : Real) / 10 ^ 6 - x| ≤ 5 / 10 ^ 7 := by
  have key : ((round (x * 10 ^ 6) : Int) : Real) / 10 ^ 6 - x =
      (((round (x * 10 ^ 6) : Int) : Real) - x * 10 ^ 6) / 10 ^ 6 := by
    ring
  rw [key, abs_div, abs_of_pos (by norm_num : (0 : Real) < 10 ^ 6),
    div_le_iff₀ (by norm_num : (0 : Real) < 10 ^ 6)]
  calc |((round (x * 10 ^ 6) : Int) : Real) - x * 10 ^ 6|
      = |x * 10 ^ 6 - ((round (x * 10 ^ 6) : Int) : Real)| := abs_sub_comm _ _
    _ ≤ 1 / 2 := abs_sub_round _
    _ = 5 / 10 ^ 7 * 10 ^ 6 := by norm_num

/-- C10: every defined Pearson cell of the payload carries the exact pairwise
Pearson statistics of its asset pair, whose real value `num / sqrt denSq` the
emission-time float `.round(6)` — `x ↦ round(x·10⁶)/10⁶` — moves by at most
`5e-7`; and every overlap cell is the integer overlap count of its pair.  The
spec never mentions this rounding step. -/
theorem c10_pearson_rounded_overlap_integer (df_prices : List PriceRow)
    (assets : List String) (ys ye : Int) (cap : Rat) (W : Nat) (p : Payload)
    (hp : compute_payload df_prices assets ys ye cap W = .ok p) :
    (∀ m, p.pearsonMatrix = some m → ∀ a row, (a, row) ∈ m → ∀ b v,
      (b, some v) ∈ row →
      pearsonCell (selectedYearly df_prices assets ys ye) a b = some v ∧
      |((round ((v.num / Real.sqrt v.denSq) * 10 ^ 6) : Int) : Real) / 10 ^ 6 -
          v.num / Real.sqrt v.denSq| ≤ 5 / 10 ^ 7) ∧
    (∀ om, p.overlapYears = some om → ∀ a row, (a, row) ∈ om → ∀ b n,
      (b, n) ∈ row →
      n = pairwise_overlap_counts (selectedYearly df_prices assets ys ye) a b) := by
  simp only [compute_payload] at hp
  obtain ⟨rolling, _, rfl⟩ := (except_map_eq_ok _ _ _).mp hp
  dsimp only
  constructor
  · intro m hm a row hrow b v hbv
    simp only [pearsonMatrixOf] at hm
    split at hm
    · obtain rfl := Option.some.inj hm
      obtain ⟨a', _, heq⟩ := List.mem_map.mp hrow
      obtain ⟨ha, hrow'⟩ := Prod.mk.injEq .. ▸ heq
      obtain ⟨b', _, heqb⟩ := List.mem_map.mp (hrow' ▸ hbv)
      obtain ⟨hb, hcell⟩ := Prod.mk.injEq .. ▸ heqb
      refine ⟨?_, round6_close _⟩
      rw [← ha, ← hb]
      exact hcell
    · exact absurd hm (by simp)
  · intro om hom a row hrow b n hbn
    simp only [overlapMatrixOf] at hom
    split at hom
    · obtain rfl := Option.some.inj hom
      obtain ⟨a', _, heq⟩ := List.mem_map.mp hrow
      obtain ⟨ha, hrow'⟩ := Prod.mk.injEq .. ▸ heq
      obtain ⟨b', _, heqb⟩ := List.mem_map.mp (hrow' ▸ hbn)
      obtain ⟨hb, hcell⟩ := Prod.mk.injEq .. ▸ heqb
      rw [← ha, ← hb]
      exact hcell.symm
    · exact absurd hom (by simp)

/-- The concrete table behind the C10 witness: both assets have yearly
returns in 2020 and 2021, perfectly linearly related. -/
def tblC10 : List PriceRow :=
  [{ date := { year := 2020, sub := 1 }, asset := "A", price := 1, category := "c" },
   { date := { year := 2020, sub := 2 }, asset := "A", price := 2, category := "c" },
   { date := { year := 2021, sub := 1 }, asset := "A", price := 1, category := "c" },
   { date := { year := 2021, sub := 2 }, asset := "A", price := 3/2, category := "c" },
   { date := { year := 2020, sub := 1 }, asset := "B", price := 1, category := "c" },
   { date := { year := 2020, sub := 2 }, asset := "B", price := 3, category := "c" },
   { date := { year := 2021, sub := 1 }, asset := "B", price := 1, category := "c" },
   { date := { year := 2021, sub := 2 }, asset := "B", price := 2, category := "c" }]

/-- The exact Pearson cell of the pair (A, B) on `tblC10`. -/
def vW : CorrVal := { num := 35/24, denSq := 1225/576 }

/-- The emitted Pearson matrix of `tblC10`. -/
def mW : List (String × List (String × Option CorrVal)) :=
  [("A", [("A", some { num := 25/32, denSq := 625/1024 }), ("B", some vW)]),
   ("B", [("A", some vW), ("B", some { num := 49/18, denSq := 2401/324 })])]

/-- C10 witness: the (A, B) cell of the concrete payload is the exact
pairwise Pearson statistics, and its 6-decimal rounding moves the real value
by at most `5e-7`; all hypotheses discharged by evaluation. -/
theorem c10_pearson_rounded_overlap_integer_witness :
    pearsonCell (selectedYearly tblC10 ["A", "B"] 2020 2021) "A" "B" =
      some vW ∧
    |((round ((vW.num / Real.sqrt vW.denSq) * 10 ^ 6) : Int) : Real) / 10 ^ 6 -
        vW.num / Real.sqrt vW.denSq| ≤ 5 / 10 ^ 7 :=
  (c10_pearson_rounded_overlap_integer tblC10 ["A", "B"] 2020 2021 100 24
      (payloadD tblC10 ["A", "B"] 2020 2021 100 24)
      (by with_unfolding_all rfl)).1
    mW (by with_unfolding_all rfl) "A"
    [("A", some { num := 25/32, denSq := 625/1024 }), ("B", some vW)]
    (of_decide_eq_true (by with_unfolding_all rfl)) "B" vW
    (of_decide_eq_true (by with_unfolding_all rfl))

end Correlio
